import Mathlib

/-!
# Verification of the MahaVastu bar-chart numeric pipeline

Shallow embedding of the numeric core of `src/main.py`: the 16 zone
identifiers, the Prakriti (elemental) grouping, the balance-line statistics
(LOB / ULOB / LLOB), the per-zone remark classifier, and the elemental
aggregation (strengths, percentages, stable descending ranking, composite
label).  Python float values are embedded as exact rationals `ℚ`; a zone
dataset is a valuation `d : String → ℚ` (the program only ever samples it on
the 16 canonical zone names).  Fallible operations (float division by zero
raises `ZeroDivisionError` in Python) are embedded with `Option`.
-/

namespace Mahavastu

/-- The 16 MahaVastu zones of `main.py`, in the canonical declared order
(`zones = [...]`, lines 16-21). -/
def zones : List String :=
  ["N", "NNE", "NE", "ENE",
   "E", "ESE", "SE", "SSE",
   "S", "SSW", "SW", "WSW",
   "W", "WNW", "NW", "NNW"]

/-- The Prakriti zone mapping of `main.py` (lines 27-31): which zones belong
to Fire / Water / Air, as an association list in declaration order (Python
dicts iterate in insertion order). -/
def prakriti_map : List (String × List String) :=
  [("Fire", ["E", "ESE", "SE", "SSE", "S", "SSW"]),
   ("Water", ["NNW", "N", "NNE", "NE", "ENE"]),
   ("Air", ["SW", "WSW", "W", "WNW", "NW"])]

/-- `areas = list(zone_data.values())` (line 78): the zone values in canonical
zone order (the dict is keyed in `zones` order in both input modes). -/
def areas (d : String → ℚ) : List ℚ :=
  zones.map d

/-- Python's `max` on a nonempty list, via a left fold with binary `max`.
`max([])` raises in Python; the list fed to it here always has 16 elements,
so the empty case is unreachable (given the junk value `0`). -/
def pymax : List ℚ → ℚ
  | [] => 0
  | x :: xs => xs.foldl max x

/-- Python's `min` on a nonempty list, analogous to `pymax`. -/
def pymin : List ℚ → ℚ
  | [] => 0
  | x :: xs => xs.foldl min x

/-- `LOB = sum(areas) / len(areas)` (line 86): the Line of Balance. -/
def LOB (d : String → ℚ) : ℚ :=
  (areas d).sum / ((areas d).length : ℚ)

/-- `max(areas)` as used on line 87. -/
def maxArea (d : String → ℚ) : ℚ :=
  pymax (areas d)

/-- `min(areas)` as used on line 88. -/
def minArea (d : String → ℚ) : ℚ :=
  pymin (areas d)

/-- `ULOB = (LOB + max(areas)) / 2` (line 87): the Upper Line of Balance. -/
def ULOB (d : String → ℚ) : ℚ :=
  (LOB d + maxArea d) / 2

/-- `LLOB = (LOB + min(areas)) / 2` (line 88): the Lower Line of Balance. -/
def LLOB (d : String → ℚ) : ℚ :=
  (LOB d + minArea d) / 2

/-- The per-zone remark of lines 98-104: `"High"` if `v > ULOB`, `"Low"` if
`v < LLOB`, else `"Balanced"`. -/
def remark (d : String → ℚ) (v : ℚ) : String :=
  if v > ULOB d then "High"
  else if v < LLOB d then "Low"
  else "Balanced"

/-- The remarks table of lines 96-104: iteration over `zone_data.items()`
(insertion order = canonical zone order in both input modes). -/
def remarks (d : String → ℚ) : List (String × String) :=
  zones.map fun z => (z, remark d (d z))

/-- Lines 110-113: `prakriti_strength[p] = sum(zone_data[z] for z in zlist)`
for each group of `prakriti_map`, in declaration order. -/
def prakriti_strength (d : String → ℚ) : List (String × ℚ) :=
  prakriti_map.map fun pz => (pz.1, (pz.2.map d).sum)

/-- Line 116: `total_prakriti = sum(prakriti_strength.values())`. -/
def total_prakriti (d : String → ℚ) : ℚ :=
  ((prakriti_strength d).map Prod.snd).sum

/-- Lines 119-122: `{p: (v / total_prakriti) * 100 ...}`.  Python float
division by a zero total raises `ZeroDivisionError`; that failure is embedded
as `none`.  On a nonzero total the comprehension is total and pure. -/
def prakriti_percentage (d : String → ℚ) : Option (List (String × ℚ)) :=
  if total_prakriti d = 0 then none
  else some ((prakriti_strength d).map fun pv => (pv.1, pv.2 / total_prakriti d * 100))

/-- Lines 125-129: `sorted(prakriti_strength.items(), key=lambda x: x[1],
reverse=True)`.  Python's sort is stable; with `reverse=True` it orders by
key descending and keeps the original order of equal keys.  `insertionSort`
with the relation `y.2 ≤ x.2` has exactly these semantics: an element is
inserted (from the left of the original list) before the first already-placed
element whose key is `≤` its own, hence before any equal-keyed element that
followed it originally. -/
def prakriti_sorted (d : String → ℚ) : List (String × ℚ) :=
  List.insertionSort (fun x y : String × ℚ => y.2 ≤ x.2) (prakriti_strength d)

/-- Line 132: `final_prakriti = "-".join(p[0] for p in prakriti_sorted)`. -/
def final_prakriti (d : String → ℚ) : String :=
  String.intercalate "-" ((prakriti_sorted d).map Prod.fst)

/-- The zone list a group of `prakriti_map` owns (by first matching name). -/
def groupZones (g : String) : List String :=
  ((prakriti_map.find? fun pz => pz.1 == g).map Prod.snd).getD []

/-- The elemental strength of one named group. -/
def groupStrength (d : String → ℚ) (g : String) : ℚ :=
  ((groupZones g).map d).sum

/-- Mode B of the input loader, lines 60-70 of `main.py`:
`df.set_index("Zone").reindex(zones)` followed by `zone_data =
df["Area"].to_dict()`.  A table row is a `(Zone, Area)` pair.  pandas
`reindex` on an index with duplicate labels raises `ValueError` ("cannot
reindex on an axis with duplicate labels"), embedded as `none` for the whole
call.  On a unique index it does not fail on a label absent from the table:
it inserts a fresh row whose `Area` is the missing-value marker NaN,
embedded as `none` in the entry (a present numeric value is `some`); extra
rows beyond the 16 zones are dropped. -/
def excel_zone_data (rows : List (String × ℚ)) :
    Option (List (String × Option ℚ)) :=
  if (rows.map Prod.fst).Nodup then
    some (zones.map fun z => (z, (rows.find? fun r => r.1 == z).map Prod.snd))
  else none

/-- A concrete Mode-B table with 15 of the 16 zone rows: the `"SW"` row is
absent. -/
def tableMissingSW : List (String × ℚ) :=
  [("N", 10), ("NNE", 20), ("NE", 30), ("ENE", 40),
   ("E", 50), ("ESE", 60), ("SE", 70), ("SSE", 80),
   ("S", 90), ("SSW", 100), ("WSW", 120),
   ("W", 130), ("WNW", 140), ("NW", 150), ("NNW", 160)]

/-- The ranking the spec describes, written from its words: the three group
names ordered by strength descending, a tie keeping the groups' declaration
order Fire, Water, Air.  (`f`, `w`, `a` are the Fire / Water / Air
strengths.)  Compared against the source-side `prakriti_sorted` in the C7
theorem. -/
def rank3_spec (f w a : ℚ) : List String :=
  if w ≤ f then
    if a ≤ w then ["Fire", "Water", "Air"]
    else if a ≤ f then ["Fire", "Air", "Water"]
    else ["Air", "Fire", "Water"]
  else
    if a ≤ f then ["Water", "Fire", "Air"]
    else if a ≤ w then ["Water", "Air", "Fire"]
    else ["Air", "Water", "Fire"]

/-! ## Helper lemmas about the fold-based `max` / `min` of a list -/

theorem init_le_foldl_max (xs : List ℚ) : ∀ a : ℚ, a ≤ xs.foldl max a := by
  induction xs with
  | nil => intro a; exact le_refl a
  | cons y ys ih =>
    intro a
    exact le_trans (le_max_left a y) (ih (max a y))

theorem mem_le_foldl_max (xs : List ℚ) :
    ∀ a : ℚ, ∀ x ∈ xs, x ≤ xs.foldl max a := by
  induction xs with
  | nil => intro a x hx; cases hx
  | cons y ys ih =>
    intro a x hx
    rcases List.mem_cons.mp hx with h | h
    · subst h
      exact le_trans (le_max_right a x) (init_le_foldl_max ys (max a x))
    · exact ih (max a y) x h

theorem foldl_max_mem (xs : List ℚ) :
    ∀ a : ℚ, xs.foldl max a = a ∨ xs.foldl max a ∈ xs := by
  induction xs with
  | nil => intro a; exact Or.inl rfl
  | cons y ys ih =>
    intro a
    rcases ih (max a y) with h | h
    · rcases max_choice a y with hm | hm
      · exact Or.inl (h.trans hm)
      · exact Or.inr (List.mem_cons.mpr (Or.inl (h.trans hm)))
    · exact Or.inr (List.mem_cons.mpr (Or.inr h))

theorem foldl_min_le_init (xs : List ℚ) : ∀ a : ℚ, xs.foldl min a ≤ a := by
  induction xs with
  | nil => intro a; exact le_refl a
  | cons y ys ih =>
    intro a
    exact le_trans (ih (min a y)) (min_le_left a y)

theorem foldl_min_le_mem (xs : List ℚ) :
    ∀ a : ℚ, ∀ x ∈ xs, xs.foldl min a ≤ x := by
  induction xs with
  | nil => intro a x hx; cases hx
  | cons y ys ih =>
    intro a x hx
    rcases List.mem_cons.mp hx with h | h
    · subst h
      exact le_trans (foldl_min_le_init ys (min a x)) (min_le_right a x)
    · exact ih (min a y) x h

theorem foldl_min_mem (xs : List ℚ) :
    ∀ a : ℚ, xs.foldl min a = a ∨ xs.foldl min a ∈ xs := by
  induction xs with
  | nil => intro a; exact Or.inl rfl
  | cons y ys ih =>
    intro a
    rcases ih (min a y) with h | h
    · rcases min_choice a y with hm | hm
      · exact Or.inl (h.trans hm)
      · exact Or.inr (List.mem_cons.mpr (Or.inl (h.trans hm)))
    · exact Or.inr (List.mem_cons.mpr (Or.inr h))

theorem pymax_mem (x : ℚ) (xs : List ℚ) : pymax (x :: xs) ∈ x :: xs := by
  rcases foldl_max_mem xs x with h | h
  · exact List.mem_cons.mpr (Or.inl h)
  · exact List.mem_cons.mpr (Or.inr h)

theorem le_pymax (x : ℚ) (xs : List ℚ) : ∀ y ∈ x :: xs, y ≤ pymax (x :: xs) := by
  intro y hy
  rcases List.mem_cons.mp hy with h | h
  · subst h; exact init_le_foldl_max xs y
  · exact mem_le_foldl_max xs x y h

theorem pymin_mem (x : ℚ) (xs : List ℚ) : pymin (x :: xs) ∈ x :: xs := by
  rcases foldl_min_mem xs x with h | h
  · exact List.mem_cons.mpr (Or.inl h)
  · exact List.mem_cons.mpr (Or.inr h)

theorem pymin_le (x : ℚ) (xs : List ℚ) : ∀ y ∈ x :: xs, pymin (x :: xs) ≤ y := by
  intro y hy
  rcases List.mem_cons.mp hy with h | h
  · subst h; exact foldl_min_le_init xs y
  · exact foldl_min_le_mem xs x y h

/-! ## Basic facts about the dataset and the balance lines -/

/-- `areas d` exposed with a head, so the nonempty-list lemmas apply. -/
theorem areas_cons (d : String → ℚ) :
    areas d = d "N" :: (["NNE", "NE", "ENE", "E", "ESE", "SE", "SSE",
      "S", "SSW", "SW", "WSW", "W", "WNW", "NW", "NNW"].map d) := rfl

theorem length_areas (d : String → ℚ) : (areas d).length = 16 := rfl

theorem maxArea_mem (d : String → ℚ) : maxArea d ∈ areas d := by
  rw [maxArea, areas_cons]
  exact pymax_mem _ _

theorem le_maxArea (d : String → ℚ) : ∀ x ∈ areas d, x ≤ maxArea d := by
  rw [maxArea, areas_cons]
  exact le_pymax _ _

theorem minArea_mem (d : String → ℚ) : minArea d ∈ areas d := by
  rw [minArea, areas_cons]
  exact pymin_mem _ _

theorem minArea_le (d : String → ℚ) : ∀ x ∈ areas d, minArea d ≤ x := by
  rw [minArea, areas_cons]
  exact pymin_le _ _

theorem LOB_le_maxArea (d : String → ℚ) : LOB d ≤ maxArea d := by
  have hsum : (areas d).sum ≤ (areas d).length • maxArea d :=
    List.sum_le_card_nsmul (areas d) (maxArea d) (le_maxArea d)
  rw [length_areas] at hsum
  have h16 : (16 : ℕ) • maxArea d = (16 : ℚ) * maxArea d := by
    rw [nsmul_eq_mul]; norm_num
  rw [LOB, length_areas]
  rw [div_le_iff₀ (by norm_num : (0 : ℚ) < (16 : ℕ))]
  calc (areas d).sum ≤ (16 : ℕ) • maxArea d := hsum
    _ = maxArea d * ((16 : ℕ) : ℚ) := by rw [h16]; push_cast; ring

theorem minArea_le_LOB (d : String → ℚ) : minArea d ≤ LOB d := by
  have hsum : (areas d).length • minArea d ≤ (areas d).sum :=
    List.card_nsmul_le_sum (areas d) (minArea d) (minArea_le d)
  rw [length_areas] at hsum
  rw [LOB, length_areas]
  rw [le_div_iff₀ (by norm_num : (0 : ℚ) < (16 : ℕ))]
  calc minArea d * ((16 : ℕ) : ℚ) = (16 : ℕ) • minArea d := by
        rw [nsmul_eq_mul]; push_cast; ring
    _ ≤ (areas d).sum := hsum

theorem LOB_le_ULOB (d : String → ℚ) : LOB d ≤ ULOB d := by
  have h := LOB_le_maxArea d
  rw [ULOB]; linarith

theorem LLOB_le_LOB (d : String → ℚ) : LLOB d ≤ LOB d := by
  have h := minArea_le_LOB d
  rw [LLOB]; linarith

theorem LLOB_le_ULOB (d : String → ℚ) : LLOB d ≤ ULOB d :=
  le_trans (LLOB_le_LOB d) (LOB_le_ULOB d)

/-! ## Claim theorems -/

/-- C1: the Balance Calculator returns `Average = arithmetic mean of the 16
values`, `UpperBound = (Average + max) / 2` and `LowerBound = (Average +
min) / 2`, where `max` / `min` really are the greatest / least of the 16
values; and the three statistics are a pure function of the 16 input values
alone (two datasets agreeing on the 16 zones yield identical statistics). -/
theorem balance_calculator_spec (d d' : String → ℚ)
    (h : ∀ z ∈ zones, d z = d' z) :
    LOB d = (areas d).sum / 16 ∧
    ULOB d = (LOB d + maxArea d) / 2 ∧
    LLOB d = (LOB d + minArea d) / 2 ∧
    maxArea d ∈ areas d ∧ (∀ x ∈ areas d, x ≤ maxArea d) ∧
    minArea d ∈ areas d ∧ (∀ x ∈ areas d, minArea d ≤ x) ∧
    LOB d = LOB d' ∧ ULOB d = ULOB d' ∧ LLOB d = LLOB d' := by
  have ha : areas d = areas d' := List.map_congr_left h
  have hLOB : LOB d = LOB d' := by rw [LOB, LOB, ha]
  have hmax : maxArea d = maxArea d' := by rw [maxArea, maxArea, ha]
  have hmin : minArea d = minArea d' := by rw [minArea, minArea, ha]
  refine ⟨?_, rfl, rfl, maxArea_mem d, le_maxArea d, minArea_mem d,
    minArea_le d, hLOB, ?_, ?_⟩
  · rw [LOB, length_areas]; norm_num
  · rw [ULOB, ULOB, hLOB, hmax]
  · rw [LLOB, LLOB, hLOB, hmin]

/-- Witness for C1 at the all-ones dataset. -/
theorem balance_calculator_spec_witness :
    LOB (fun _ => (1 : ℚ)) = (areas (fun _ => (1 : ℚ))).sum / 16 :=
  (balance_calculator_spec (fun _ => (1 : ℚ)) (fun _ => (1 : ℚ))
    (fun _ _ => rfl)).1

/-- C2: the classifier returns `"High"` exactly when `v > UpperBound`,
`"Low"` exactly when `v < LowerBound`, and `"Balanced"` otherwise; a value
equal to `UpperBound` or to `LowerBound` is classified `"Balanced"` (strict
inequalities decide High/Low). -/
theorem remark_classification (d : String → ℚ) (v : ℚ) :
    (remark d v = "High" ↔ v > ULOB d) ∧
    (remark d v = "Low" ↔ v < LLOB d) ∧
    (remark d v = "Balanced" ↔ LLOB d ≤ v ∧ v ≤ ULOB d) ∧
    (v = ULOB d → remark d v = "Balanced") ∧
    (v = LLOB d → remark d v = "Balanced") := by
  have hlu := LLOB_le_ULOB d
  unfold remark
  split_ifs with h1 h2
  · refine ⟨iff_of_true rfl h1, iff_of_false (by decide) ?_,
      iff_of_false (by decide) ?_, ?_, ?_⟩
    · intro h; linarith
    · rintro ⟨_, h⟩; linarith
    · intro he; rw [he] at h1; exact absurd h1 (lt_irrefl _)
    · intro he; rw [he] at h1; linarith
  · refine ⟨iff_of_false (by decide) h1, iff_of_true rfl h2,
      iff_of_false (by decide) ?_, ?_, ?_⟩
    · rintro ⟨hl, _⟩; linarith
    · intro he; rw [he] at h2; linarith
    · intro he; rw [he] at h2; exact absurd h2 (lt_irrefl _)
  · exact ⟨iff_of_false (by decide) h1, iff_of_false (by decide) h2,
      iff_of_true rfl ⟨not_lt.mp h2, not_lt.mp h1⟩,
      fun _ => rfl, fun _ => rfl⟩

/-- Witness for C2: a value equal to the upper bound is `"Balanced"`. -/
theorem remark_classification_witness :
    remark (fun _ => (0 : ℚ)) 0 = "Balanced" :=
  (remark_classification (fun _ => (0 : ℚ)) 0).2.2.2.1
    (by simp [ULOB, LOB, maxArea, areas, zones, pymax, List.foldl])

/-- C3: the three derived balance statistics satisfy
`LowerBound ≤ Average ≤ UpperBound` for every dataset. -/
theorem balance_line_ordering (d : String → ℚ) :
    LLOB d ≤ LOB d ∧ LOB d ≤ ULOB d :=
  ⟨LLOB_le_LOB d, LOB_le_ULOB d⟩

/-- C4, counterexample: with the `"SW"` row absent from the (unique-label)
table, the Mode-B loader does not fail with MissingZone — pandas `reindex`
inserts a missing-value (NaN) row, so a full 16-entry dataset IS produced,
with `"SW"` mapped to the undefined value, and the calculations then run on
it. -/
theorem loader_missing_zone_counterexample :
    excel_zone_data tableMissingSW =
      some [("N", some 10), ("NNE", some 20), ("NE", some 30),
       ("ENE", some 40), ("E", some 50), ("ESE", some 60), ("SE", some 70),
       ("SSE", some 80), ("S", some 90), ("SSW", some 100), ("SW", none),
       ("WSW", some 120), ("W", some 130), ("WNW", some 140),
       ("NW", some 150), ("NNW", some 160)] := by
  have hnd : (tableMissingSW.map Prod.fst).Nodup := by decide
  unfold excel_zone_data
  rw [if_pos hnd]
  rfl

/-- C4, amended: in Mode B a zone identifier absent from the table does not
cause a MissingZone failure.  When the table's labels are unique, the
reindex yields a dataset with all 16 entries, in which every absent zone is
bound to the missing value (NaN); the only failure in this step is pandas'
duplicate-label `ValueError`, raised exactly when a label repeats. -/
theorem loader_missing_zone_amended (rows : List (String × ℚ)) :
    ((rows.map Prod.fst).Nodup →
      ∃ ds, excel_zone_data rows = some ds ∧ ds.length = 16 ∧
        ∀ z ∈ zones, z ∉ rows.map Prod.fst → (z, (none : Option ℚ)) ∈ ds) ∧
    (¬(rows.map Prod.fst).Nodup → excel_zone_data rows = none) := by
  constructor
  · intro hnd
    refine ⟨zones.map fun z => (z, (rows.find? fun r => r.1 == z).map Prod.snd),
      ?_, ?_, ?_⟩
    · unfold excel_zone_data
      rw [if_pos hnd]
    · simp [zones]
    · intro z hz habs
      have hfind : (rows.find? fun r => r.1 == z) = none := by
        rw [List.find?_eq_none]
        intro r hr
        simp only [beq_iff_eq]
        intro he
        exact habs (List.mem_map.mpr ⟨r, hr, he⟩)
      exact List.mem_map.mpr ⟨z, hz, by simp [hfind]⟩
  · intro hnd
    unfold excel_zone_data
    rw [if_neg hnd]

/-- Witness for the amended C4 at the concrete unique-label table missing
`"SW"`. -/
theorem loader_missing_zone_amended_witness :
    ∃ ds, excel_zone_data tableMissingSW = some ds ∧ ds.length = 16 ∧
      ∀ z ∈ zones, z ∉ tableMissingSW.map Prod.fst →
        (z, (none : Option ℚ)) ∈ ds :=
  (loader_missing_zone_amended tableMissingSW).1 (by decide)

/-- C5: with a zero total (in particular when all 16 inputs are zero) the
percentage computation divides by zero and fails; with a nonzero total it
returns `100 × strength / total` for each group. -/
theorem prakriti_percentage_spec (d : String → ℚ) :
    ((∀ z ∈ zones, d z = 0) →
      total_prakriti d = 0 ∧ prakriti_percentage d = none) ∧
    (total_prakriti d ≠ 0 → prakriti_percentage d =
      some ((prakriti_strength d).map fun pv =>
        (pv.1, 100 * pv.2 / total_prakriti d))) := by
  constructor
  · intro h
    have h0 : total_prakriti d = 0 := by
      simp only [total_prakriti, prakriti_strength, prakriti_map, List.map,
        List.sum_cons, List.sum_nil]
      rw [h "E" (by decide), h "ESE" (by decide), h "SE" (by decide),
        h "SSE" (by decide), h "S" (by decide), h "SSW" (by decide),
        h "NNW" (by decide), h "N" (by decide), h "NNE" (by decide),
        h "NE" (by decide), h "ENE" (by decide), h "SW" (by decide),
        h "WSW" (by decide), h "W" (by decide), h "WNW" (by decide),
        h "NW" (by decide)]
      norm_num
    refine ⟨h0, ?_⟩
    simp [prakriti_percentage, h0]
  · intro h
    simp only [prakriti_percentage, if_neg h]
    congr 1
    apply List.map_congr_left
    intro pv _
    have he : pv.2 / total_prakriti d * 100 = 100 * pv.2 / total_prakriti d := by
      ring
    rw [he]

/-- Witness for C5: the all-zero dataset fails; the all-ones dataset yields
the percentage list. -/
theorem prakriti_percentage_spec_witness :
    prakriti_percentage (fun _ => (0 : ℚ)) = none ∧
    prakriti_percentage (fun _ => (1 : ℚ)) =
      some ((prakriti_strength (fun _ => (1 : ℚ))).map fun pv =>
        (pv.1, 100 * pv.2 / total_prakriti (fun _ => (1 : ℚ)))) :=
  ⟨((prakriti_percentage_spec (fun _ => (0 : ℚ))).1 (fun _ _ => rfl)).2,
   (prakriti_percentage_spec (fun _ => (1 : ℚ))).2
     (by norm_num [total_prakriti, prakriti_strength, prakriti_map])⟩

/-- C6: the three elemental groups' zone lists are pairwise disjoint and
jointly exhaust the 16 canonical zones (their concatenation is a permutation
of `zones`); consequently the total elemental strength equals the sum of all
16 zone values, for every dataset. -/
theorem elemental_partition (d : String → ℚ) :
    List.Perm ((prakriti_map.map Prod.snd).flatten) zones ∧
    (∀ g1 ∈ prakriti_map, ∀ g2 ∈ prakriti_map, g1.1 ≠ g2.1 →
      ∀ z ∈ g1.2, z ∉ g2.2) ∧
    total_prakriti d = (areas d).sum := by
  have hperm : List.Perm ((prakriti_map.map Prod.snd).flatten) zones := by
    decide
  refine ⟨hperm, by decide, ?_⟩
  calc total_prakriti d
      = (((prakriti_map.map Prod.snd).flatten).map d).sum := by
        simp only [total_prakriti, prakriti_strength, prakriti_map]
        simp
        ring
    _ = (zones.map d).sum := (hperm.map d).sum_eq
    _ = (areas d).sum := rfl

/-- Witness for C6: strength-sum agreement at a concrete dataset. -/
theorem elemental_partition_witness :
    total_prakriti (fun _ => (2 : ℚ)) = (areas (fun _ => (2 : ℚ))).sum :=
  (elemental_partition (fun _ => (2 : ℚ))).2.2

/-- C7: the ranking is the stable descending sort of the three groups —
equal strengths keep the declaration order Fire, Water, Air — and the
composite label joins the ranked names with `"-"`, strongest first. -/
theorem prakriti_ranking (d : String → ℚ) :
    (prakriti_sorted d).map Prod.fst =
      rank3_spec (groupStrength d "Fire") (groupStrength d "Water")
        (groupStrength d "Air") ∧
    final_prakriti d =
      String.intercalate "-"
        (rank3_spec (groupStrength d "Fire") (groupStrength d "Water")
          (groupStrength d "Air")) := by
  have hs : prakriti_strength d =
      [("Fire", groupStrength d "Fire"), ("Water", groupStrength d "Water"),
       ("Air", groupStrength d "Air")] := rfl
  have key : (prakriti_sorted d).map Prod.fst =
      rank3_spec (groupStrength d "Fire") (groupStrength d "Water")
        (groupStrength d "Air") := by
    rw [prakriti_sorted, hs]
    rcases le_or_lt (groupStrength d "Air") (groupStrength d "Water") with h1 | h1
    · rcases le_or_lt (groupStrength d "Water") (groupStrength d "Fire") with h2 | h2
      · simp [List.insertionSort, List.orderedInsert, rank3_spec, h1, h2,
          le_trans h1 h2]
      · rcases le_or_lt (groupStrength d "Air") (groupStrength d "Fire") with h3 | h3
        · simp [List.insertionSort, List.orderedInsert, rank3_spec, h1,
            not_le.mpr h2, h3]
        · simp [List.insertionSort, List.orderedInsert, rank3_spec, h1,
            not_le.mpr h2, not_le.mpr h3]
    · rcases le_or_lt (groupStrength d "Air") (groupStrength d "Fire") with h2 | h2
      · have hwf : groupStrength d "Water" ≤ groupStrength d "Fire" :=
          le_trans (le_of_lt h1) h2
        simp [List.insertionSort, List.orderedInsert, rank3_spec,
          not_le.mpr h1, h2, hwf]
      · rcases le_or_lt (groupStrength d "Water") (groupStrength d "Fire") with h3 | h3
        · simp [List.insertionSort, List.orderedInsert, rank3_spec,
            not_le.mpr h1, not_le.mpr h2, h3]
        · simp [List.insertionSort, List.orderedInsert, rank3_spec,
            not_le.mpr h1, not_le.mpr h2, not_le.mpr h3]
  exact ⟨key, by rw [final_prakriti, key]⟩

/-- Witness for C7: with all zone values 1 the strengths are Fire 6,
Water 5, Air 5; the Water/Air tie keeps declaration order, giving the label
`"Fire-Water-Air"`. -/
theorem prakriti_ranking_witness :
    final_prakriti (fun _ => (1 : ℚ)) = "Fire-Water-Air" := by
  have h := (prakriti_ranking (fun _ => (1 : ℚ))).2
  rw [h]
  have hF : groupStrength (fun _ => (1 : ℚ)) "Fire" = 6 := by
    norm_num [groupStrength,
      show groupZones "Fire" = ["E", "ESE", "SE", "SSE", "S", "SSW"] from rfl]
  have hW : groupStrength (fun _ => (1 : ℚ)) "Water" = 5 := by
    norm_num [groupStrength,
      show groupZones "Water" = ["NNW", "N", "NNE", "NE", "ENE"] from rfl]
  have hA : groupStrength (fun _ => (1 : ℚ)) "Air" = 5 := by
    norm_num [groupStrength,
      show groupZones "Air" = ["SW", "WSW", "W", "WNW", "NW"] from rfl]
  rw [hF, hW, hA]
  norm_num [rank3_spec]
  decide

/-- C8: whenever the total elemental strength is nonzero, the three
per-group percentages sum to exactly 100 in exact rational arithmetic. -/
theorem percentage_sum (d : String → ℚ) (h : total_prakriti d ≠ 0) :
    ∃ ps, prakriti_percentage d = some ps ∧ (ps.map Prod.snd).sum = 100 := by
  refine ⟨(prakriti_strength d).map fun pv =>
    (pv.1, pv.2 / total_prakriti d * 100), ?_, ?_⟩
  · rw [prakriti_percentage, if_neg h]
  · have hs : prakriti_strength d =
        [("Fire", groupStrength d "Fire"), ("Water", groupStrength d "Water"),
         ("Air", groupStrength d "Air")] := rfl
    have ht : total_prakriti d =
        groupStrength d "Fire" + (groupStrength d "Water" +
          (groupStrength d "Air" + 0)) := rfl
    have h' : groupStrength d "Fire" +
        (groupStrength d "Water" + groupStrength d "Air") ≠ 0 := by
      rw [ht] at h
      simpa using h
    rw [hs, ht]
    simp only [List.map_cons, List.map_nil, List.sum_cons, List.sum_nil]
    field_simp
    ring

/-- Witness for C8 at the all-ones dataset. -/
theorem percentage_sum_witness :
    ∃ ps, prakriti_percentage (fun _ => (1 : ℚ)) = some ps ∧
      (ps.map Prod.snd).sum = 100 :=
  percentage_sum (fun _ => (1 : ℚ))
    (by norm_num [total_prakriti, prakriti_strength, prakriti_map])

theorem foldl_max_replicate (c : ℚ) (n : ℕ) :
    (List.replicate n c).foldl max c = c := by
  induction n with
  | zero => rfl
  | succ n ih => rw [List.replicate_succ, List.foldl_cons, max_self]; exact ih

theorem foldl_min_replicate (c : ℚ) (n : ℕ) :
    (List.replicate n c).foldl min c = c := by
  induction n with
  | zero => rfl
  | succ n ih => rw [List.replicate_succ, List.foldl_cons, min_self]; exact ih

/-- C9: on an all-equal dataset the three balance lines coincide with the
common value and every zone is classified `"Balanced"`. -/
theorem all_equal_balanced (d : String → ℚ) (c : ℚ)
    (h : ∀ z ∈ zones, d z = c) :
    LOB d = c ∧ ULOB d = c ∧ LLOB d = c ∧
    ∀ z ∈ zones, remark d (d z) = "Balanced" := by
  have hmem : ∀ b ∈ areas d, b = c := by
    intro b hb
    rcases List.mem_map.mp hb with ⟨z, hz, he⟩
    rw [← he]
    exact h z hz
  have ha : areas d = List.replicate 16 c := by
    have := List.eq_replicate_of_mem hmem
    rwa [length_areas] at this
  have hLOB : LOB d = c := by
    rw [LOB, ha]
    simp [List.sum_replicate]
    ring
  have hmax : maxArea d = c := by
    rw [maxArea, ha]
    show (List.replicate 15 c).foldl max c = c
    exact foldl_max_replicate c 15
  have hmin : minArea d = c := by
    rw [minArea, ha]
    show (List.replicate 15 c).foldl min c = c
    exact foldl_min_replicate c 15
  have hU : ULOB d = c := by rw [ULOB, hLOB, hmax]; ring
  have hL : LLOB d = c := by rw [LLOB, hLOB, hmin]; ring
  refine ⟨hLOB, hU, hL, ?_⟩
  intro z hz
  have hdz := h z hz
  simp [remark, hdz, hU, hL, lt_irrefl]

/-- Witness for C9 at the constant-5 dataset. -/
theorem all_equal_balanced_witness :
    LOB (fun _ => (5 : ℚ)) = 5 :=
  (all_equal_balanced (fun _ => (5 : ℚ)) 5 (fun _ _ => rfl)).1

theorem lt_LLOB_of_remark_low (d : String → ℚ) (v : ℚ)
    (h : remark d v = "Low") : v < LLOB d := by
  unfold remark at h
  split_ifs at h with h1 h2
  · exact absurd h (by decide)
  · exact h2
  · exact absurd h (by decide)

theorem gt_ULOB_of_remark_high (d : String → ℚ) (v : ℚ)
    (h : remark d v = "High") : v > ULOB d := by
  unfold remark at h
  split_ifs at h with h1 h2
  · exact h1
  · exact absurd h (by decide)
  · exact absurd h (by decide)

/-- C10: a zone attaining the maximum value is never classified `"Low"`, a
zone attaining the minimum is never classified `"High"`, and hence the
remark mapping is never `"Low"` on all 16 zones nor `"High"` on all 16. -/
theorem extreme_zone_remarks (d : String → ℚ) :
    (∀ z ∈ zones, d z = maxArea d → remark d (d z) ≠ "Low") ∧
    (∀ z ∈ zones, d z = minArea d → remark d (d z) ≠ "High") ∧
    ¬(∀ p ∈ remarks d, p.2 = "Low") ∧
    ¬(∀ p ∈ remarks d, p.2 = "High") := by
  have hA : ∀ z ∈ zones, d z = maxArea d → remark d (d z) ≠ "Low" := by
    intro z _ he hlow
    have h1 := lt_LLOB_of_remark_low d (d z) hlow
    have h2 := LLOB_le_LOB d
    have h3 := LOB_le_maxArea d
    rw [he] at h1
    linarith
  have hB : ∀ z ∈ zones, d z = minArea d → remark d (d z) ≠ "High" := by
    intro z _ he hhigh
    have h1 := gt_ULOB_of_remark_high d (d z) hhigh
    have h2 := LOB_le_ULOB d
    have h3 := minArea_le_LOB d
    rw [he] at h1
    linarith
  refine ⟨hA, hB, ?_, ?_⟩
  · intro hall
    rcases List.mem_map.mp (maxArea_mem d) with ⟨z, hz, he⟩
    exact hA z hz he
      (hall (z, remark d (d z)) (List.mem_map.mpr ⟨z, hz, rfl⟩))
  · intro hall
    rcases List.mem_map.mp (minArea_mem d) with ⟨z, hz, he⟩
    exact hB z hz he
      (hall (z, remark d (d z)) (List.mem_map.mpr ⟨z, hz, rfl⟩))

/-- Witness for C10: in the constant dataset the maximal zone `"N"` is not
`"Low"`. -/
theorem extreme_zone_remarks_witness :
    remark (fun _ => (1 : ℚ)) 1 ≠ "Low" :=
  (extreme_zone_remarks (fun _ => (1 : ℚ))).1 "N" (by decide)
    (by norm_num [maxArea, areas, zones, pymax, List.foldl])

end Mahavastu
